import Mathlib

/-!
# Verification of the graph_generator builders

Shallow embedding of the three graph-construction algorithms of the
repository:

* `RandomGraph` — the randomized acyclic-graph builder
  (`src/random.rs`, with an identical twin `RandomLayout` in `src/lib.rs`);
* `comp_graph` — the layered lattice builder (`src/comm.rs`);
* `CubeGraph` / `CubeGraphOld` — the two spatiotemporal 3D-grid builders
  (`src/comm.rs`).

Machine integers (`usize`, `u32`, `isize`) are modelled as `Nat`/`Int`;
`usize` wrapping arithmetic (`wrapping_add` / `wrapping_sub`) is modelled
explicitly modulo `2^64`, and Rust `isize` `/` and `%` (truncating
division) as `Int.tdiv` / `Int.tmod`.  Loops whose termination is not
structural take an explicit fuel argument and return `Option`; `none`
means the fuel ran out, `some` is the value the Rust code returns.
-/

/-- A directed edge `(tail, head)`; the code works with `(u32, u32)` and
`(usize, usize)` pairs. -/
abbrev Edge := Nat × Nat

/-- One usize word: wrapping arithmetic in the source is modulo `2^64`. -/
def usizeSize : Nat := 2 ^ 64

/-- `usize::MAX`, the value `0usize.wrapping_sub(1)` and the first entry of
the `modifiers` array in `CubeGraph::get_neighbors`. -/
def usizeMax : Nat := 2 ^ 64 - 1

/-- Rust `a.wrapping_add(b)` on `usize`. -/
def wrapAdd (a b : Nat) : Nat := (a + b) % usizeSize

namespace RandomGraph

/-- The pseudo-random collaborator (`Lcg` in `src/util.rs`, not part of the
sources; the spec specifies only its interface `next_in_range(bound)` →
uniformly distributed integer in `[0, bound)`).  Modelled as an arbitrary
stream of naturals together with a cursor; drawing in `[0, bound)` takes the
next stream element modulo `bound`, so every sequence of in-range draws is
realised by some stream. -/
structure Rng where
  stream : Nat → Nat
  idx : Nat

/-- `rng.generate_range(bound)`: a value in `[0, bound)` plus the advanced
generator. -/
def Rng.genRange (r : Rng) (bound : Nat) : Nat × Rng :=
  (r.stream r.idx % bound, ⟨r.stream, r.idx + 1⟩)

/-- Insertion into the `visited` `HashSet`, modelled as a list with
set-membership semantics. -/
def insertVisited (e : Edge) (visited : List Edge) : List Edge :=
  if e ∈ visited then visited else e :: visited

/-- The inner `while let Some(edge) = frontier.pop()` walk of
`RandomGraph::contains_cycle` (src/random.rs:50-58).  The popped edge's
successors are the edges whose tail equals its head; if any of them is
already in `visited` the walk reports a cycle, otherwise they are pushed
(stack order: last pushed popped first) and the popped edge is marked
visited.  Returns the verdict together with the final `visited` set;
`none` when out of fuel. -/
def cycleWalk (edges : List Edge) : Nat → List Edge → List Edge → Option (Bool × List Edge)
  | 0, _, _ => none
  | _ + 1, visited, [] => some (false, visited)
  | fuel + 1, visited, e :: frontier =>
    let succs := edges.filter (fun s => s.1 = e.2)
    if succs.any (fun s => visited.contains s) then
      some (true, visited)
    else
      cycleWalk edges fuel (insertVisited e visited) (succs.reverse ++ frontier)

/-- The outer `for edge in edges` loop of `contains_cycle`
(src/random.rs:45-59): skip edges already visited, otherwise walk from
them, threading the `visited` set through. -/
def cycleLoop (edges : List Edge) (fuel : Nat) : List Edge → List Edge → Option Bool
  | _, [] => some false
  | visited, e :: rest =>
    if e ∈ visited then cycleLoop edges fuel visited rest
    else
      match cycleWalk edges fuel visited [e] with
      | none => none
      | some (true, _) => some true
      | some (false, visited') => cycleLoop edges fuel visited' rest

/-- `RandomGraph::contains_cycle` (src/random.rs:43-62), with fuel bounding
each depth-first walk. -/
def contains_cycle (fuel : Nat) (edges : List Edge) : Option Bool :=
  cycleLoop edges fuel [] edges

/-- The inner rejection loop (`loop { ... }`, src/random.rs:21-36): draw a
successor in `[0, num_edges]` and an endpoint of `cur` as predecessor,
redraw on collision or duplicate, tentatively push the edge and pop it
again if `contains_cycle` reports a cycle; `break` (return the grown edge
list) otherwise.  `cfuel` bounds each cycle check. -/
def innerLoop (n cfuel : Nat) (cur : Edge) : Nat → List Edge → Rng → Option (List Edge × Rng)
  | 0, _, _ => none
  | fuel + 1, edges, rng =>
    let s := (rng.genRange (n + 1)).1
    let rng1 := (rng.genRange (n + 1)).2
    let pi := (rng1.genRange 2).1
    let rng2 := (rng1.genRange 2).2
    let p := if pi = 0 then cur.1 else cur.2
    if s = p then innerLoop n cfuel cur fuel edges rng2
    else if (p, s) ∈ edges then innerLoop n cfuel cur fuel edges rng2
    else
      match contains_cycle cfuel (edges ++ [(p, s)]) with
      | none => none
      | some true => innerLoop n cfuel cur fuel edges rng2
      | some false => some (edges ++ [(p, s)], rng2)

/-- The outer `while edges.len() < self.num_edges` loop of
`RandomGraph::build_edges` (src/random.rs:18-37): pick a random existing
edge as anchor and run the rejection loop. -/
def buildLoop (n cfuel : Nat) : Nat → List Edge → Rng → Option (List Edge)
  | 0, edges, _ => if n ≤ edges.length then some edges else none
  | fuel + 1, edges, rng =>
    if n ≤ edges.length then some edges
    else
      let i := (rng.genRange edges.length).1
      let rng1 := (rng.genRange edges.length).2
      let cur := edges.getD i (0, 0)
      match innerLoop n cfuel cur fuel edges rng1 with
      | none => none
      | some (edges', rng2) => buildLoop n cfuel fuel edges' rng2

/-- `RandomGraph::build_edges` (src/random.rs:14-40): seed with `(0,1)`
and grow to `num_edges` edges.  `RandomLayout::build_edges`
(src/lib.rs:99-125) is the same algorithm over a different random
source. -/
def build_edges (fuel cfuel : Nat) (stream : Nat → Nat) (numEdges : Nat) : Option (List Edge) :=
  buildLoop numEdges cfuel fuel [(0, 1)] ⟨stream, 0⟩

end RandomGraph

/-! ## The layered lattice builder (`comp_graph`, src/comm.rs:3-51) -/

/-- `create_layers` (src/comm.rs:47-51): layer `i` is the contiguous ID
range `[i*nodes_per_layer, (i+1)*nodes_per_layer)`. -/
def create_layers (nodesPerLayer nLayers : Nat) : List (List Nat) :=
  (List.range nLayers).map (fun i => (List.range nodesPerLayer).map (fun j => i * nodesPerLayer + j))

/-- The communication-edge loop of `comp_graph` (src/comm.rs:35-41): for
each boundary `(upper, lower)` and each position past `inside`, push
`(upper[j], comm)` and `(comm, lower[j])`, incrementing the running hub
counter `comm` once per boundary. -/
def comm_edges (inside : Nat) : Nat → List (List Nat × List Nat) → List Edge
  | _, [] => []
  | comm, (upper, lower) :: rest =>
    ((upper.drop inside).zip (lower.drop inside)).flatMap
        (fun vs => [(vs.1, comm), (comm, vs.2)])
      ++ comm_edges inside (comm + 1) rest

/-- The neighbor-edge loop of `comp_graph` (src/comm.rs:12-26): per
boundary `(upper, lower)` and per position `i`, the lower diagonal-left
neighbor is looked up at index `i.wrapping_sub(1)` (out of range at
`i = 0`), the straight neighbor indexed directly at `i`, and the
diagonal-right neighbor looked up at `i + 1`. -/
def neighbor_edges (nodesPerLayer : Nat) (boundaries : List (List Nat × List Nat)) : List Edge :=
  boundaries.flatMap (fun ul =>
    (List.range nodesPerLayer).flatMap (fun i =>
      let vertex := ul.1.getD i 0
      (match ul.2.get? (wrapAdd i usizeMax) with
        | some left => [(vertex, left)]
        | none => []) ++
      [(vertex, ul.2.getD i 0)] ++
      (match ul.2.get? (i + 1) with
        | some right => [(vertex, right)]
        | none => [])))

/-- `comp_graph` (src/comm.rs:3-44).  Boundaries are the pairs of
`layers.iter().zip(&layers[1..])`; after the neighbor edges, unless
`outside == 0` returns early, the hub counter starts at
`(inside+outside)*n_layers` and the communication edges follow. -/
def comp_graph (inside outside nLayers : Nat) : List Edge :=
  if nLayers ≤ 1 ∨ inside + outside = 0 then [] else
  if outside = 0 then
    neighbor_edges (inside + outside)
      ((create_layers (inside + outside) nLayers).zip
        (create_layers (inside + outside) nLayers).tail)
  else
    neighbor_edges (inside + outside)
      ((create_layers (inside + outside) nLayers).zip
        (create_layers (inside + outside) nLayers).tail) ++
    comm_edges inside ((inside + outside) * nLayers)
      ((create_layers (inside + outside) nLayers).zip
        (create_layers (inside + outside) nLayers).tail)

/-! ## The newer cube builder (`CubeGraph`, src/comm.rs:55-143) -/

namespace CubeGraph

/-- The ID stored at `cubes[ts][x][y][z]` by `CubeGraph::new`
(src/comm.rs:64-80): a single counter incremented over timesteps, then
width, height and depth (depth fastest). -/
def cellId (w h d ts x y z : Nat) : Nat :=
  ts * (w * h * d) + x * (h * d) + y * d + z

/-- `CubeGraph::get_neighbors` (src/comm.rs:109-136): the 27 offsets
`[usize::MAX, 0, 1]^3` minus the zero offset, each applied with wrapping
`usize` addition and kept only when the chained `Vec::get` lookups all
succeed (`ts+1` a valid timestep, each coordinate inside its axis). -/
def get_neighbors (w h d t ts x y z : Nat) : List Nat :=
  [usizeMax, 0, 1].flatMap fun i =>
    [usizeMax, 0, 1].flatMap fun j =>
      [usizeMax, 0, 1].filterMap fun k =>
        if i = 0 ∧ j = 0 ∧ k = 0 then none
        else if ts + 1 < t ∧ wrapAdd x i < w ∧ wrapAdd y j < h ∧ wrapAdd z k < d then
          some (cellId w h d (ts + 1) (wrapAdd x i) (wrapAdd y j) (wrapAdd z k))
        else none

/-- `CubeGraph::is_outer_vertex` (src/comm.rs:138-142).  `build` only calls
it with `x < w`, `y < h`, `z < d`, so the `Nat` subtractions coincide with
the `usize` ones. -/
def is_outer_vertex (w h d x y z : Nat) : Bool :=
  x = 0 ∨ x = w - 1 ∨ y = 0 ∨ y = h - 1 ∨ z = 0 ∨ z = d - 1

/-- The edge list produced by the loops of `CubeGraph::build`
(src/comm.rs:86-104) for `timesteps ≥ 1`: all neighbor edges of every cell
of timesteps `0..timesteps-1`, plus the two hub edges for outer cells,
with hub ID `w*h*d*timesteps + ts`. -/
def buildList (w h d t : Nat) : List Edge :=
  (List.range (t - 1)).flatMap fun ts =>
    (List.range w).flatMap fun x =>
      (List.range h).flatMap fun y =>
        (List.range d).flatMap fun z =>
          let cur := cellId w h d ts x y z
          ((get_neighbors w h d t ts x y z).map fun n => (cur, n)) ++
          (if is_outer_vertex w h d x y z then
            [(cur, w * h * d * t + ts), (w * h * d * t + ts, cellId w h d (ts + 1) x y z)]
          else [])

/-- `CubeGraph::build` (src/comm.rs:82-107).  The loop bound
`self.timesteps - 1` is an unchecked `usize` subtraction: at
`timesteps == 0` it underflows (a panic in a debug build; in a release
build the wrapped bound makes the first `self.cubes[ts]` access fault), so
that case is modelled as `none`.  For `timesteps ≥ 1` the function returns
the accumulated edge vector. -/
def build (w h d t : Nat) : Option (List Edge) :=
  if t = 0 then none else some (buildList w h d t)

end CubeGraph

/-! ## The older cube builder (`CubeGraphOld`, src/comm.rs:210-327) -/

namespace CubeGraphOld

/-- `CubeGraphOld::x` (src/comm.rs:307-309): depth-axis coordinate,
`id % depth` on `isize` (truncating remainder). -/
def xCoord (d : Int) (id : Int) : Int := id.tmod d

/-- `CubeGraphOld::y` (src/comm.rs:312-314): height-axis coordinate,
`id / (width * depth)` on `isize` (truncating division). -/
def yCoord (w d : Int) (id : Int) : Int := id.tdiv (w * d)

/-- `CubeGraphOld::z` (src/comm.rs:318-320): width-axis coordinate,
`(id / depth) % width`; dead code in the source, used here to exhibit the
wraparound neighbors its absence from the filter lets through. -/
def zCoord (w d : Int) (id : Int) : Int := (id.tdiv d).tmod w

/-- `CubeGraphOld::calc_neighbor` (src/comm.rs:323-326) with
`ops = [0, 1, -1]` indexed by the loop counters. -/
def calc_neighbor (w d : Int) (id : Int) (i j k : Nat) : Int :=
  let ops : List Int := [0, 1, -1]
  id + d * w * ops.getD i 0 + 1 * ops.getD j 0 + d * ops.getD k 0

/-- `CubeGraphOld::get_neighbor_indices` (src/comm.rs:282-299): all 27
`calc_neighbor` values, kept when in `[0, w*h*d)` with height- and
depth-axis coordinates differing by at most 1, then cast to `usize`. -/
def get_neighbor_indices (w h d : Nat) (id : Int) : List Nat :=
  (((List.range 3).flatMap fun i =>
      (List.range 3).flatMap fun j =>
        (List.range 3).map fun k => calc_neighbor w d id i j k).filter
    (fun n : Int =>
      0 ≤ n ∧ n < (w * h * d : Nat) ∧
      (yCoord w d id - yCoord w d n).natAbs ≤ 1 ∧
      (xCoord d id - xCoord d n).natAbs ≤ 1)).map Int.toNat

/-- `CubeGraphOld::is_outer_vertex` (src/comm.rs:266-280).  `build` calls
it only with `0 ≤ id < w*h*d`, where the `isize` arithmetic coincides with
`Nat` arithmetic. -/
def is_outer_vertex (w h d : Nat) (id : Nat) : Bool :=
  id < d * w ∨ id ≥ d * w * (h - 1) ∨
  id % d = 0 ∨ id % d = d - 1 ∨
  id % (d * w) < d ∨ id % (d * w) ≥ (d - 1) * w

/-- The edge vector accumulated by `CubeGraphOld::build`
(src/comm.rs:227-258) before the final `HashSet` deduplication: empty when
a dimension is under 3, otherwise, per step and per cell `id`, the
neighbor edges `(id, n + (step+1)*nv)` and, for outer cells, the two hub
edges through `comm = step + nv*timesteps`. -/
def buildRaw (w h d t : Nat) : List Edge :=
  if h < 3 ∨ w < 3 ∨ d < 3 then [] else
  let nv := w * h * d
  (List.range (t - 1)).flatMap fun step =>
    let comm := step + nv * t
    (List.range nv).flatMap fun id =>
      ((get_neighbor_indices w h d id).map fun n => (id, n + (step + 1) * nv)) ++
      (if is_outer_vertex w h d id then [(id, comm), (comm, id + (step + 1) * nv)] else [])

/-- The return value of `CubeGraphOld::build` (src/comm.rs:259-263): the
accumulated edges are piped through a `HashSet` whose iteration order is
unspecified, so the observable result is *some* duplicate-free list with
exactly the members of `buildRaw`.  (On the early-return path, undersized
dimensions, the result is the empty vector itself.) -/
def BuildRel (w h d t : Nat) (out : List Edge) : Prop :=
  if h < 3 ∨ w < 3 ∨ d < 3 then out = []
  else out.Nodup ∧ (∀ e ∈ out, e ∈ buildRaw w h d t) ∧ (∀ e ∈ buildRaw w h d t, e ∈ out)

end CubeGraphOld

/-! ## Helper lemmas -/

section Helpers

set_option maxRecDepth 40000

/-- Strict ascent of a list of naturals, checked adjacently (linear time,
used to certify `Nodup` of large computed lists cheaply). -/
def strictAscending : List Nat → Bool
  | [] => true
  | [_] => true
  | a :: b :: rest => a < b && strictAscending (b :: rest)

theorem chain'_of_strictAscending :
    ∀ l : List Nat, strictAscending l = true → List.Chain' (· < ·) l
  | [], _ => List.chain'_nil
  | [_], _ => List.chain'_singleton _
  | a :: b :: rest, h => by
    rw [strictAscending, Bool.and_eq_true] at h
    exact List.Chain'.cons (of_decide_eq_true h.1)
      (chain'_of_strictAscending (b :: rest) h.2)

/-- A list is duplicate-free as soon as some key function sends it to a
list whose mergesort is strictly ascending. -/
theorem nodup_of_sorted_keys (l : List Edge) (f : Edge → Nat)
    (h : strictAscending ((l.map f).mergeSort (· ≤ ·)) = true) : l.Nodup :=
  List.Nodup.of_map f
    ((List.mergeSort_perm (l.map f) _).nodup
      ((List.chain'_iff_pairwise.mp (chain'_of_strictAscending _ h)).imp Nat.ne_of_lt))

/-- The per-cell slice of `CubeGraphOld.buildRaw 3 3 3 2` (one step, so
`step = 0`, `comm = 54`, `nv = 27`). -/
def oldPiece332 (id : Nat) : List Edge :=
  ((CubeGraphOld.get_neighbor_indices 3 3 3 id).map fun n => (id, n + 27)) ++
  (if CubeGraphOld.is_outer_vertex 3 3 3 id then [(id, 54), (54, id + 27)] else [])

/-- Every edge of a slice determines its cell: the tail, except for the
hub-to-successor edge whose head is `id + 27`. -/
def oldKey332 (e : Edge) : Nat := if e.1 = 54 then e.2 - 27 else e.1

theorem buildRaw332_eq :
    CubeGraphOld.buildRaw 3 3 3 2 = (List.range 27).flatMap oldPiece332 := by
  decide

theorem oldPiece332_key : ∀ id < 27, ∀ e ∈ oldPiece332 id, oldKey332 e = id := by decide

theorem oldPiece332_nodup : ∀ id < 27, (oldPiece332 id).Nodup := by decide

/-- The pre-deduplication edge vector of `CubeGraphOld::build` at
`(3,3,3,2)` has no duplicates, so the `HashSet` round trip may emit it in
any order. -/
theorem nodup_buildRaw332 : (CubeGraphOld.buildRaw 3 3 3 2).Nodup := by
  rw [buildRaw332_eq, List.nodup_flatMap]
  refine ⟨fun id hid => oldPiece332_nodup id (List.mem_range.mp hid), ?_⟩
  refine (List.pairwise_lt_range 27).imp_of_mem ?_
  intro a b ha hb hab e hea heb
  have hka := oldPiece332_key a (List.mem_range.mp ha) e hea
  have hkb := oldPiece332_key b (List.mem_range.mp hb) e heb
  exact absurd (hka.symm.trans hkb) (Nat.ne_of_lt hab)

/-- `CubeGraphOld::build` can produce an output for every parameter tuple:
the empty vector on the early return, any duplicate-free reordering of
`buildRaw` otherwise. -/
theorem buildRel_total (w h d t : Nat) : ∃ out, CubeGraphOld.BuildRel w h d t out := by
  unfold CubeGraphOld.BuildRel
  by_cases hg : h < 3 ∨ w < 3 ∨ d < 3
  · exact ⟨[], by rw [if_pos hg]⟩
  · refine ⟨(CubeGraphOld.buildRaw w h d t).dedup, ?_⟩
    rw [if_neg hg]
    exact ⟨List.nodup_dedup _, fun e he => List.mem_dedup.mp he,
      fun e he => List.mem_dedup.mpr he⟩

end Helpers

/-! ## Claim theorems -/

set_option maxRecDepth 40000

/-- Claim C10: there is an acyclic edge list — `[(0,1),(1,2),(3,1)]`,
witnessed acyclic by a rank function increasing along every edge — on
which the edge-based `contains_cycle` check nevertheless reports a cycle:
the walk from `(3,1)` reaches `(1,2)`, which an earlier walk already
visited. -/
theorem contains_cycle_false_positive :
    RandomGraph.contains_cycle 20 [(0, 1), (1, 2), (3, 1)] = some true ∧
    ∃ rank : Nat → Nat,
      ∀ e ∈ ([(0, 1), (1, 2), (3, 1)] : List Edge), rank e.1 < rank e.2 :=
  ⟨by decide, ⟨fun v => [0, 1, 2, 0].getD v 0, by decide⟩⟩

/-- Claim C5, counterexample: with `num_edges == 0` the random builder
does not fail — the growth loop's guard is already satisfied, so it
returns the seed collection `[(0,1)]` (here at fuel 1 and an arbitrary
stream). -/
theorem build_edges_zero_counterexample :
    RandomGraph.build_edges 1 0 (fun _ => 0) 0 = some [(0, 1)] := by decide

/-- Claim C5, amended: with `num_edges == 0` the random builder does not
hang, index out of range, or fail: for every fuel, cycle-check fuel and
random stream it immediately returns the one-edge seed collection
`[(0,1)]`. -/
theorem build_edges_zero_spec (fuel cfuel : Nat) (stream : Nat → Nat) :
    RandomGraph.build_edges fuel cfuel stream 0 = some [(0, 1)] := by
  cases fuel <;> simp [RandomGraph.build_edges, RandomGraph.buildLoop]

/-- Claim C3, counterexample: `CubeGraph::build` performs no dimension
check — with `width = 2 < 3` it still returns a non-empty edge
collection. -/
theorem cube_build_no_dimension_check :
    (CubeGraph.build 2 3 3 2).isSome = true ∧ CubeGraph.build 2 3 3 2 ≠ some [] := by
  decide

/-- Claim C3, amended: `CubeGraphOld::build` returns the empty collection
whenever a dimension is under 3, for every timestep count; `CubeGraph::build`
has no such check. -/
theorem cube_old_build_undersized_empty (w h d t : Nat) (out : List Edge)
    (hdim : w < 3 ∨ h < 3 ∨ d < 3) (hout : CubeGraphOld.BuildRel w h d t out) :
    out = [] := by
  unfold CubeGraphOld.BuildRel at hout
  rwa [if_pos (by tauto)] at hout

/-- Witness for `cube_old_build_undersized_empty` at `(2,3,3,7)`. -/
theorem cube_old_build_undersized_empty_witness :
    ((2 : Nat) < 3 ∨ (3 : Nat) < 3 ∨ (3 : Nat) < 3) ∧
    CubeGraphOld.BuildRel 2 3 3 7 [] ∧ ([] : List Edge) = [] := by
  have hrel : CubeGraphOld.BuildRel 2 3 3 7 [] := by
    unfold CubeGraphOld.BuildRel
    rw [if_pos (by decide)]
  exact ⟨by decide, hrel, cube_old_build_undersized_empty 2 3 3 7 [] (by decide) hrel⟩

/-- Claim C7, counterexample: at `timesteps == 0` the `usize` subtraction
`self.timesteps - 1` in `CubeGraph::build` underflows and the build
faults instead of returning a collection. -/
theorem cube_build_zero_timesteps_faults : CubeGraph.build 3 3 3 0 = none := rfl

/-- Claim C7, amended: `CubeGraphOld::build` terminates normally and
returns a collection on every input, including `timesteps = 0`;
`CubeGraph::build` does so only for `timesteps ≥ 1` (it faults at 0). -/
theorem cube_build_termination (w h d t : Nat) (ht : 1 ≤ t) :
    (∃ out, CubeGraphOld.BuildRel w h d 0 out) ∧
    (∃ out, CubeGraphOld.BuildRel w h d t out) ∧
    (CubeGraph.build w h d t).isSome = true := by
  refine ⟨buildRel_total w h d 0, buildRel_total w h d t, ?_⟩
  unfold CubeGraph.build
  rw [if_neg (by omega)]
  rfl

/-- Witness for `cube_build_termination` at `(3,3,3,2)`. -/
theorem cube_build_termination_witness :
    (1 : Nat) ≤ 2 ∧
    ((∃ out, CubeGraphOld.BuildRel 3 3 3 0 out) ∧
     (∃ out, CubeGraphOld.BuildRel 3 3 3 2 out) ∧
     (CubeGraph.build 3 3 3 2).isSome = true) :=
  ⟨by decide, cube_build_termination 3 3 3 2 (by decide)⟩

/-- Claim C2, code bug: at `(3,3,3,3)` the old builder's second step
emits the edge `(0, 54)` — its tail is cell 0 of timestep 0 (the tail is
never offset by `step·nv`), while its head is cell 54 of timestep 2, so
this structural edge (both endpoints below `nv·timesteps = 81`) connects
non-consecutive timesteps. -/
theorem cube_old_nonconsecutive_edge :
    ((0, 54) : Edge) ∈ CubeGraphOld.buildRaw 3 3 3 3 ∧
    (0 : Nat) < 27 * 3 ∧ (54 : Nat) < 27 * 3 ∧ 54 / 27 ≠ 0 / 27 + 1 := by
  decide

/-- Claim C6, code bug: `CubeGraphOld::get_neighbor_indices` filters on
the height- and depth-axis coordinates but never on the width-axis
coordinate (the dead `z` accessor), so at `(3,3,3)` cell 8 — on the
width-axis face `z = 2` — keeps the wrapped candidate 11 with width-axis
coordinate 0 (difference 2), and the build at `(3,3,3,2)` emits the
wraparound edge `(8, 38)`. -/
theorem cube_old_wraparound_neighbor :
    (11 : Nat) ∈ CubeGraphOld.get_neighbor_indices 3 3 3 8 ∧
    CubeGraphOld.zCoord 3 3 8 = 2 ∧ CubeGraphOld.zCoord 3 3 11 = 0 ∧
    ((8, 38) : Edge) ∈ CubeGraphOld.buildRaw 3 3 3 2 := by
  decide

/-- Claim C4, counterexample: `CubeGraph::get_neighbors` skips the zero
offset, so `CubeGraph::build` at `(3,3,3,2)` does not contain the
straight-through edge from interior cell `(1,1,1)` at timestep 0 (ID 13)
to the same cell at timestep 1 (ID 40). -/
theorem cube_new_missing_straight_through :
    CubeGraph.build 3 3 3 2 = some (CubeGraph.buildList 3 3 3 2) ∧
    ((13, 40) : Edge) ∉ CubeGraph.buildList 3 3 3 2 ∧
    (13 : Nat) = CubeGraph.cellId 3 3 3 0 1 1 1 ∧
    (40 : Nat) = CubeGraph.cellId 3 3 3 1 1 1 1 := by
  decide

/-- Claim C9, counterexample: at `(3,3,3,2)` the duplicate-free edge
vector and its reversal are both possible outputs of `CubeGraphOld::build`
(the `HashSet` deduplication fixes the members, not their order), and they
are different sequences — so two invocations need not return identical
sequences. -/
theorem cube_old_order_nondeterministic :
    CubeGraphOld.BuildRel 3 3 3 2 (CubeGraphOld.buildRaw 3 3 3 2) ∧
    CubeGraphOld.BuildRel 3 3 3 2 (CubeGraphOld.buildRaw 3 3 3 2).reverse ∧
    CubeGraphOld.buildRaw 3 3 3 2 ≠ (CubeGraphOld.buildRaw 3 3 3 2).reverse := by
  refine ⟨?_, ?_, by decide⟩
  · unfold CubeGraphOld.BuildRel
    rw [if_neg (by decide)]
    exact ⟨nodup_buildRaw332, fun e he => he, fun e he => he⟩
  · unfold CubeGraphOld.BuildRel
    rw [if_neg (by decide)]
    exact ⟨List.nodup_reverse.mpr nodup_buildRaw332,
      fun e he => List.mem_reverse.mp he, fun e he => List.mem_reverse.mpr he⟩

/-- Claim C9, amended: the layered builder and `CubeGraph::build` are
pure functions of their parameters (identical output across invocations);
`CubeGraphOld::build` is deterministic only up to reordering — any two of
its possible outputs for the same parameters contain exactly the same
edges. -/
theorem builders_deterministic_content (i o n w h d t : Nat) (out1 out2 : List Edge)
    (h1 : CubeGraphOld.BuildRel w h d t out1) (h2 : CubeGraphOld.BuildRel w h d t out2) :
    comp_graph i o n = comp_graph i o n ∧
    CubeGraph.build w h d t = CubeGraph.build w h d t ∧
    ∀ e : Edge, e ∈ out1 ↔ e ∈ out2 := by
  refine ⟨rfl, rfl, fun e => ?_⟩
  unfold CubeGraphOld.BuildRel at h1 h2
  by_cases hg : h < 3 ∨ w < 3 ∨ d < 3
  · rw [if_pos hg] at h1 h2
    rw [h1, h2]
  · rw [if_neg hg] at h1 h2
    exact ⟨fun he => h2.2.2 e (h1.2.1 e he), fun he => h1.2.2 e (h2.2.1 e he)⟩

/-- Witness for `builders_deterministic_content` at degenerate cube
parameters, where the empty list is a valid old-builder output. -/
theorem builders_deterministic_content_witness :
    CubeGraphOld.BuildRel 0 0 0 0 [] ∧ CubeGraphOld.BuildRel 0 0 0 0 [] ∧
    (comp_graph 1 1 2 = comp_graph 1 1 2 ∧
     CubeGraph.build 0 0 0 0 = CubeGraph.build 0 0 0 0 ∧
     ∀ e : Edge, e ∈ ([] : List Edge) ↔ e ∈ ([] : List Edge)) := by
  have hrel : CubeGraphOld.BuildRel 0 0 0 0 [] := by
    unfold CubeGraphOld.BuildRel
    rw [if_pos (by decide)]
  exact ⟨hrel, hrel, builders_deterministic_content 1 1 2 0 0 0 0 [] [] hrel hrel⟩

/-- The zero offset `(i,j,k) = (0,0,0)` of `CubeGraphOld::get_neighbor_indices`
yields the cell itself, and it passes every filter, so each cell is among
its own neighbor indices. -/
theorem mem_get_neighbor_indices_self (w h d : Nat) (id : Nat) (hid : id < w * h * d) :
    id ∈ CubeGraphOld.get_neighbor_indices w h d id := by
  unfold CubeGraphOld.get_neighbor_indices
  refine List.mem_map.mpr ⟨(id : Int), List.mem_filter.mpr ⟨?_, ?_⟩, Int.toNat_natCast id⟩
  · refine List.mem_flatMap.mpr ⟨0, by decide, ?_⟩
    refine List.mem_flatMap.mpr ⟨0, by decide, ?_⟩
    refine List.mem_map.mpr ⟨0, by decide, ?_⟩
    simp [CubeGraphOld.calc_neighbor]
  · refine decide_eq_true ?_
    refine ⟨Int.natCast_nonneg id, ?_, ?_, ?_⟩
    · exact_mod_cast hid
    · simp
    · simp

/-- Claim C4, amended: the old builder always emits the zero-offset
straight-through edge at the first snapshot boundary — for dimensions at
least 3, at least two timesteps and any cell `id`, the edge
`(id, id + w·h·d)` from the cell at timestep 0 to the same cell at
timestep 1 is in the built collection.  (`CubeGraph::get_neighbors`
explicitly skips the zero offset, so the new builder never emits
straight-through edges.) -/
theorem cube_old_straight_through (w h d t id : Nat)
    (hw : 3 ≤ w) (hh : 3 ≤ h) (hd : 3 ≤ d) (ht : 2 ≤ t) (hid : id < w * h * d) :
    (id, id + w * h * d) ∈ CubeGraphOld.buildRaw w h d t := by
  unfold CubeGraphOld.buildRaw
  rw [if_neg (by omega)]
  refine List.mem_flatMap.mpr ⟨0, List.mem_range.mpr (by omega), ?_⟩
  refine List.mem_flatMap.mpr ⟨id, List.mem_range.mpr hid, ?_⟩
  refine List.mem_append_left _ ?_
  refine List.mem_map.mpr ⟨id, mem_get_neighbor_indices_self w h d id hid, ?_⟩
  norm_num

/-- Witness for `cube_old_straight_through` at `(3,3,3,2)`, cell 5. -/
theorem cube_old_straight_through_witness :
    ((3 : Nat) ≤ 3 ∧ (2 : Nat) ≤ 2 ∧ (5 : Nat) < 3 * 3 * 3) ∧
    ((5, 5 + 3 * 3 * 3) : Edge) ∈ CubeGraphOld.buildRaw 3 3 3 2 :=
  ⟨by decide,
    cube_old_straight_through 3 3 3 2 5 (by decide) (by decide) (by decide) (by decide)
      (by decide)⟩

/-- The `b`-th boundary processed by the communication loop contributes,
for every pair `(vu, vl)` of the zipped dropped layers, the edges
`(vu, c + b)` and `(c + b, vl)`, where `c` is the initial hub counter. -/
theorem comm_edges_mem (inside : Nat) :
    ∀ (bs : List (List Nat × List Nat)) (c b : Nat) (hb : b < bs.length) (vu vl : Nat),
      (vu, vl) ∈ ((bs.get ⟨b, hb⟩).1.drop inside).zip ((bs.get ⟨b, hb⟩).2.drop inside) →
      (vu, c + b) ∈ comm_edges inside c bs ∧ (c + b, vl) ∈ comm_edges inside c bs
  | [], _, b, hb => absurd hb (by simp)
  | (u, l) :: rest, c, 0, _ => fun vu vl hmem => by
    refine ⟨List.mem_append_left _ (List.mem_flatMap.mpr ⟨(vu, vl), hmem, ?_⟩),
      List.mem_append_left _ (List.mem_flatMap.mpr ⟨(vu, vl), hmem, ?_⟩)⟩ <;> simp
  | (u, l) :: rest, c, b + 1, hb => fun vu vl hmem => by
    have ih := comm_edges_mem inside rest (c + 1) b (by simpa using hb) vu vl (by simpa using hmem)
    rw [show c + (b + 1) = (c + 1) + b by omega]
    exact ⟨List.mem_append_right _ ih.1, List.mem_append_right _ ih.2⟩

/-- There are `n_layers - 1` boundaries. -/
theorem create_layers_zip_length (npl n : Nat) :
    ((create_layers npl n).zip (create_layers npl n).tail).length = n - 1 := by
  simp [create_layers, List.length_zip]

/-- The `b`-th boundary is the pair of layers `b` and `b + 1`. -/
theorem create_layers_zip_get (npl n b : Nat)
    (hlen : b < ((create_layers npl n).zip (create_layers npl n).tail).length) :
    ((create_layers npl n).zip (create_layers npl n).tail).get ⟨b, hlen⟩ =
      ((List.range npl).map (fun j => b * npl + j),
       (List.range npl).map (fun j => (b + 1) * npl + j)) := by
  rw [List.get_eq_getElem, List.getElem_zip]
  congr 1
  · simp only [create_layers, List.getElem_map, List.getElem_range]
  · rw [List.getElem_tail]
    simp only [create_layers, List.getElem_map, List.getElem_range]

/-- Zipping the two layers of a boundary after dropping the first
`inside` positions pairs the IDs at positions `inside + k`, `k <
outside`. -/
theorem drop_zip_layer (npl inside o b : Nat) (h : npl = inside + o) :
    (((List.range npl).map (fun j => b * npl + j)).drop inside).zip
      (((List.range npl).map (fun j => (b + 1) * npl + j)).drop inside) =
    (List.range o).map
      (fun k => (b * npl + (inside + k), (b + 1) * npl + (inside + k))) := by
  have hdrop : (List.range npl).drop inside = (List.range o).map (fun x => inside + x) := by
    rw [h, List.range_add]
    exact List.drop_left' (List.length_range inside)
  rw [← List.map_drop, ← List.map_drop, hdrop, List.map_map, List.map_map, List.zip_map']
  simp [Function.comp]

/-- Claim C8: for `outside ≥ 1` and `n_layers ≥ 2`, boundary `b` (in
order) and every position `j` in `[inside, inside+outside)`, the layered
builder's result contains `(upper[j], hub)` and `(hub, lower[j])` with
`hub = (inside+outside)·n_layers + b` — the first boundary's hub ID is
`(inside+outside)·n_layers` and each later boundary's is one greater —
and hub IDs collide with no structural layer ID. -/
theorem comp_graph_comm_hub_edges (inside outside nLayers b j : Nat)
    (ho : 1 ≤ outside) (hn : 2 ≤ nLayers) (hb : b < nLayers - 1)
    (hj1 : inside ≤ j) (hj2 : j < inside + outside) :
    (b * (inside + outside) + j, (inside + outside) * nLayers + b) ∈
      comp_graph inside outside nLayers ∧
    ((inside + outside) * nLayers + b, (b + 1) * (inside + outside) + j) ∈
      comp_graph inside outside nLayers ∧
    (∀ l p, l < nLayers → p < inside + outside →
      l * (inside + outside) + p ≠ (inside + outside) * nLayers + b) := by
  have hlen : b < ((create_layers (inside + outside) nLayers).zip
      (create_layers (inside + outside) nLayers).tail).length := by
    rw [create_layers_zip_length]
    omega
  have hmem : (b * (inside + outside) + j, (b + 1) * (inside + outside) + j) ∈
      ((((create_layers (inside + outside) nLayers).zip
          (create_layers (inside + outside) nLayers).tail).get ⟨b, hlen⟩).1.drop inside).zip
        ((((create_layers (inside + outside) nLayers).zip
          (create_layers (inside + outside) nLayers).tail).get ⟨b, hlen⟩).2.drop inside) := by
    rw [create_layers_zip_get]
    rw [drop_zip_layer (inside + outside) inside outside b rfl]
    refine List.mem_map.mpr ⟨j - inside, List.mem_range.mpr (by omega), ?_⟩
    have : inside + (j - inside) = j := by omega
    rw [this]
  have hcm := comm_edges_mem inside _ ((inside + outside) * nLayers) b hlen _ _ hmem
  have hguard : ¬(nLayers ≤ 1 ∨ inside + outside = 0) := by omega
  have hout : ¬(outside = 0) := by omega
  have hhub : ∀ l p, l < nLayers → p < inside + outside →
      l * (inside + outside) + p ≠ (inside + outside) * nLayers + b := by
    intro l p hl hp
    have h1 : l * (inside + outside) + p < (l + 1) * (inside + outside) := by
      rw [Nat.succ_mul]
      omega
    have h2 : (l + 1) * (inside + outside) ≤ nLayers * (inside + outside) :=
      Nat.mul_le_mul_right _ hl
    have h3 : nLayers * (inside + outside) = (inside + outside) * nLayers :=
      Nat.mul_comm _ _
    omega
  refine ⟨?_, ?_, hhub⟩ <;>
    · unfold comp_graph
      rw [if_neg hguard, if_neg hout]
      exact List.mem_append_right _ (by first
        | exact hcm.1
        | exact hcm.2)

/-- Witness for `comp_graph_comm_hub_edges` at the spec's example
`comp_graph 0 3 2`, boundary 0, position 1: hub 6, edges `(1,6)` and
`(6,4)`. -/
theorem comp_graph_comm_hub_edges_witness :
    ((1 : Nat) ≤ 3 ∧ (2 : Nat) ≤ 2 ∧ (0 : Nat) < 2 - 1 ∧ (0 : Nat) ≤ 1 ∧ (1 : Nat) < 0 + 3) ∧
    ((0 * (0 + 3) + 1, (0 + 3) * 2 + 0) ∈ comp_graph 0 3 2 ∧
     ((0 + 3) * 2 + 0, (0 + 1) * (0 + 3) + 1) ∈ comp_graph 0 3 2 ∧
     (∀ l p, l < 2 → p < 0 + 3 → l * (0 + 3) + p ≠ (0 + 3) * 2 + 0)) :=
  ⟨by decide,
    comp_graph_comm_hub_edges 0 3 2 0 1 (by decide) (by decide) (by decide) (by decide)
      (by decide)⟩

namespace RandomGraph

/-- The invariant the growth loop maintains: the edge list is nonempty,
duplicate-free, all vertex IDs lie in `[0, n]`, and the acyclicity check
completes on it reporting no cycle. -/
def EdgesInv (n : Nat) (edges : List Edge) : Prop :=
  edges ≠ [] ∧ edges.Nodup ∧ (∀ e ∈ edges, e.1 ≤ n ∧ e.2 ≤ n) ∧
  ∃ f, contains_cycle f edges = some false

/-- Appending a fresh in-bounds edge that passes the cycle check
preserves the invariant. -/
theorem append_edge_inv (n : Nat) (edges : List Edge) (p s : Nat)
    (hinv : EdgesInv n edges) (hp : p ≤ n) (hs : s ≤ n) (hnew : (p, s) ∉ edges)
    (cfuel : Nat) (hcyc : contains_cycle cfuel (edges ++ [(p, s)]) = some false) :
    EdgesInv n (edges ++ [(p, s)]) := by
  refine ⟨by simp, ?_, ?_, ⟨cfuel, hcyc⟩⟩
  · exact (List.perm_append_singleton (p, s) edges).symm.nodup
      (List.nodup_cons.mpr ⟨hnew, hinv.2.1⟩)
  · intro e he
    rcases List.mem_append.mp he with he | he
    · exact hinv.2.2.1 e he
    · simp at he
      rw [he]
      exact ⟨hp, hs⟩

/-- When the rejection loop returns, it has appended exactly one edge and
the invariant still holds: the predecessor is an endpoint of the anchor
edge, the successor is a draw in `[0, n]`, the duplicate test was passed
and the cycle check reported no cycle. -/
theorem innerLoop_spec (n cfuel : Nat) (cur : Edge) :
    ∀ (fuel : Nat) (edges : List Edge) (rng : Rng) (out : List Edge × Rng),
      innerLoop n cfuel cur fuel edges rng = some out →
      cur.1 ≤ n → cur.2 ≤ n → EdgesInv n edges →
      EdgesInv n out.1 ∧ out.1.length = edges.length + 1 := by
  intro fuel
  induction fuel with
  | zero =>
    intro edges rng out h
    simp [innerLoop] at h
  | succ fuel ih =>
    intro edges rng out h hc1 hc2 hinv
    rw [innerLoop] at h
    split at h <;>
    · split at h
      · exact ih edges _ out h hc1 hc2 hinv
      · split at h
        · exact ih edges _ out h hc1 hc2 hinv
        · split at h
          · exact absurd h (by simp)
          · exact ih edges _ out h hc1 hc2 hinv
          · obtain rfl : (edges ++ [_], _) = out := Option.some.inj h
            exact ⟨append_edge_inv n edges _ _ hinv
              (by first | exact hc1 | exact hc2)
              (Nat.le_of_lt_succ (Nat.mod_lt _ (Nat.succ_pos n)))
              (by assumption) cfuel (by assumption), by simp⟩

/-- The anchor edge drawn by `edges[rng.generate_range(edges.len())]`
satisfies the invariant's ID bounds (the out-of-range default `(0,0)`
does trivially). -/
theorem getD_bounds (n : Nat) (edges : List Edge) (i : Nat)
    (hb : ∀ e ∈ edges, e.1 ≤ n ∧ e.2 ≤ n) :
    (edges.getD i (0, 0)).1 ≤ n ∧ (edges.getD i (0, 0)).2 ≤ n := by
  by_cases hlt : i < edges.length
  · rw [List.getD_eq_getElem edges (0, 0) hlt]
    exact hb _ (List.getElem_mem hlt)
  · rw [List.getD_eq_default edges (0, 0) (by omega)]
    exact ⟨Nat.zero_le n, Nat.zero_le n⟩

/-- The growth loop: starting from an invariant-satisfying list of at most
`n` edges, a completed run returns an invariant-satisfying list of exactly
`n` edges. -/
theorem buildLoop_spec (n cfuel : Nat) :
    ∀ (fuel : Nat) (edges : List Edge) (rng : Rng) (out : List Edge),
      buildLoop n cfuel fuel edges rng = some out →
      EdgesInv n edges → edges.length ≤ n →
      out.length = n ∧ EdgesInv n out := by
  intro fuel
  induction fuel with
  | zero =>
    intro edges rng out h hinv hlen
    rw [buildLoop] at h
    split at h
    · obtain rfl : edges = out := Option.some.inj h
      exact ⟨by omega, hinv⟩
    · exact absurd h (by simp)
  | succ fuel ih =>
    intro edges rng out h hinv hlen
    rw [buildLoop] at h
    split at h
    · obtain rfl : edges = out := Option.some.inj h
      exact ⟨by omega, hinv⟩
    · simp only [] at h
      split at h
      · exact absurd h (by simp)
      · rename_i hlt edges' rng2 heq
        have hcur := getD_bounds n edges ((rng.genRange edges.length).1) hinv.2.2.1
        have hstep := innerLoop_spec n cfuel _ fuel edges _ _ heq hcur.1 hcur.2 hinv
        have hlen' : edges'.length = edges.length + 1 := hstep.2
        exact ih edges' rng2 out h hstep.1 (by omega)

/-- Claim C1: for every `num_edges ≥ 1`, every random stream and every
fuel on which `build_edges` completes, the returned list has exactly
`num_edges` edges, contains no duplicate ordered pair, all its vertex IDs
lie in `[0, num_edges]`, and the edge-based acyclicity check completes on
it reporting no cycle. -/
theorem build_edges_spec (numEdges fuel cfuel : Nat) (stream : Nat → Nat)
    (result : List Edge) (hn : 1 ≤ numEdges)
    (h : build_edges fuel cfuel stream numEdges = some result) :
    result.length = numEdges ∧ result.Nodup ∧
    (∀ e ∈ result, e.1 ≤ numEdges ∧ e.2 ≤ numEdges) ∧
    ∃ f, contains_cycle f result = some false := by
  have hinit : EdgesInv numEdges [(0, 1)] := by
    refine ⟨by simp, by simp, ?_, ⟨2, by decide⟩⟩
    intro e he
    simp at he
    rw [he]
    exact ⟨Nat.zero_le _, hn⟩
  have := buildLoop_spec numEdges cfuel fuel [(0, 1)] ⟨stream, 0⟩ result h hinit (by simpa)
  exact ⟨this.1, this.2.2.1, this.2.2.2.1, this.2.2.2.2⟩

end RandomGraph

/-- Witness for `RandomGraph.build_edges_spec`: a concrete completing run
with `num_edges = 2` on the stream drawing 0, 2, 0. -/
theorem build_edges_spec_witness :
    (1 : Nat) ≤ 2 ∧
    (([(0, 1), (0, 2)] : List Edge).length = 2 ∧ ([(0, 1), (0, 2)] : List Edge).Nodup ∧
     (∀ e ∈ ([(0, 1), (0, 2)] : List Edge), e.1 ≤ 2 ∧ e.2 ≤ 2) ∧
     ∃ f, RandomGraph.contains_cycle f [(0, 1), (0, 2)] = some false) :=
  ⟨by decide,
    RandomGraph.build_edges_spec 2 2 10 (fun i => [0, 2, 0].getD i 0) [(0, 1), (0, 2)]
      (by decide) (by decide)⟩
